import Mathlib

/-!
Verification development for the go-sharding repository.

Shallow embedding of the following source files:
  * `rewriting/limit_writer.go` (`NewLimitWriter`)
  * `core/script/inline_expression.go` (`Flat`, `splitSegments`,
    `flushSegment`, `flushGroup`)
  * `proxy/server/executor_handle.go` (`handleQuery`, `doQuery`,
    `handleSet`, `handleSetVariable`, `handleSetAutoCommit`,
    `handleStmtClose`)

Go machine integers are modelled as `Nat`/`Int`; Go strings are ASCII byte
strings modelled as Lean `String`/`List Char` (for every claim considered
here the relevant inputs are ASCII, where Go's rune iteration coincides
with byte iteration).  Fallible Go code returns `Except`/`Option`.
Collaborators whose source is not part of the provided `src/` tree
(the mysql helper package, the script compiler, the statistics manager)
are modelled from the specification; each such definition carries a doc
comment starting with `Modelled from the spec:`.
-/

set_option maxHeartbeats 1600000

namespace GoSharding

/-! ## Errors

`DBErr` models the two kinds of error values the executor produces:
`mysql.NewError`/`mysql.NewDefaultError` values carrying a MySQL error
code, and plain Go `fmt.Errorf`/`errors.New` values carrying only a
message.  `errors.ErrInternalServer` (package `core/errors`, not under
`src/`) is modelled as its own constructor. -/

inductive DBErr where
  | mysqlErr : Nat → String → DBErr
  | goErr : String → DBErr
  | internalServer : DBErr
deriving DecidableEq, Repr

/-- `true` exactly on MySQL error 1290 (ER_OPTION_PREVENTS_STATEMENT,
"read only"), the code the claim C6 expects. -/
def DBErr.isMysql1290 : DBErr → Bool
  | DBErr.mysqlErr 1290 _ => true
  | _ => false

/-! ## `rewriting/limit_writer.go` -/

/-- The part of `explain.Context` that `NewLimitWriter` reads: the limit
lookup with `HasLimit()`, `Offset()` and `Count()` (both `int64`). -/
structure LimitLookup where
  hasLimit : Bool
  offset : Int
  count : Int
deriving DecidableEq, Repr

/-- The fields of the `ast.Limit` node built by `NewLimitWriter`:
a count value and an (absent) offset value. -/
structure AstLimit where
  count : Int
  offset : Option Int
deriving DecidableEq, Repr

/-- Embedding of `NewLimitWriter` (`rewriting/limit_writer.go`).
The guard is transcribed exactly as written in the source: it errors when
`HasLimit()` is true and builds the new node when it is false. -/
def NewLimitWriter (context : LimitLookup) : Except String AstLimit :=
  if context.hasLimit then
    Except.error "there is none limit in plain context"
  else
    let newCount := if context.offset > 0 then context.count + context.offset
                    else context.count
    Except.ok { count := newCount, offset := none }

/-! ## Session state (`proxy/server`)

The slice of `SessionExecutor` state that the claims touch. -/

/-- A pooled backend connection pinned in `txConns`.  `autoCommitFails`
models whether its `SetAutoCommit(1)` call returns an error. -/
structure PooledConnect where
  connId : Nat
  autoCommitFails : Bool
deriving DecidableEq, Repr

/-- A prepared statement (`Stmt` in `executor_handle.go`). -/
structure Stmt where
  id : Nat
  sql : String
  paramCount : Nat
deriving DecidableEq, Repr

/-- The `SessionExecutor` fields the handled claims read or write.
`defaultCharset`/`defaultCollationId` model the namespace defaults
returned by `GetDefaultCharset`/`GetDefaultCollationID`.  Maps are
modelled as association lists keyed by their Go map key. -/
structure Session where
  db : String
  charset : String
  collation : Nat
  status : Nat
  txConns : List (String × PooledConnect)
  sysVars : List (String × String)
  generalLog : Bool
  stmts : List (Nat × Stmt)
  defaultCharset : String
  defaultCollationId : Nat
deriving DecidableEq, Repr

/-- `mysql.ServerStatusInTrans` (MySQL protocol SERVER_STATUS_IN_TRANS). -/
def ServerStatusInTrans : Nat := 1

/-- `mysql.ServerStatusAutocommit` (MySQL protocol SERVER_STATUS_AUTOCOMMIT). -/
def ServerStatusAutocommit : Nat := 2

/-- Clearing a single-bit flag, Go's `status &= ^flag` on a one-bit mask:
if the bit is set subtract it, otherwise leave the status unchanged. -/
def clearFlag (status flag : Nat) : Nat :=
  if status &&& flag > 0 then status - flag else status

/-! ## `handleStmtClose` -/

/-- `binary.LittleEndian.Uint32` on the first four bytes of a payload
(bytes are naturals below 256). -/
def littleEndianUint32 (data : List Nat) : Nat :=
  data.getD 0 0 + 256 * data.getD 1 0 + 65536 * data.getD 2 0 +
    16777216 * data.getD 3 0

/-- Embedding of `handleStmtClose` (`executor_handle.go`): payloads
shorter than 4 bytes are ignored; otherwise the prepared statement whose
id is the little-endian `uint32` of the first four bytes is deleted from
`se.stmts` (Go `delete`, modelled as filtering the association list). -/
def handleStmtClose (se : Session) (data : List Nat) : Option DBErr × Session :=
  if data.length < 4 then
    (none, se)
  else
    let id := littleEndianUint32 data
    (none, { se with stmts := se.stmts.filter (fun p => p.1 ≠ id) })

/-! ## `handleSet` / `handleSetVariable` / `handleSetAutoCommit` -/

/-- One element of `ast.SetStmt.Variables`.  `value` (and the optional
`extendValue` for `SET NAMES … COLLATE …`) hold the result of
`getVariableExprResult` on the corresponding expression.
Modelled from the spec: `getVariableExprResult` (helper outside `src/`)
evaluates a value expression to its lowercase literal text; the embedding
takes that evaluated string directly. -/
structure VariableAssignment where
  isGlobal : Bool
  name : String
  value : String
  extendValue : Option String
deriving DecidableEq, Repr

/-- Go's `strings.ToLower` on ASCII strings (Lean's `String.toLower`,
restated with structural recursion so that witnesses can evaluate it). -/
def toLowerStr (s : String) : String :=
  String.mk (s.data.map Char.toLower)

/-- Association-list lookup, Go's `m[k]` comma-ok form. -/
def lookupStr {α : Type} (m : List (String × α)) (k : String) : Option α :=
  (m.find? (fun p => p.1 == k)).map Prod.snd

/-- Association-list store (used to model the session-variable setters). -/
def upsert (m : List (String × String)) (k v : String) : List (String × String) :=
  (k, v) :: m.filter (fun p => p.1 ≠ k)

/-- Modelled from the spec: fragment of the mysql package's
charset → default-collation-name table (the table itself is not under
`src/`). -/
def CharsetsToCollationNames : List (String × String) :=
  [("utf8", "utf8_general_ci"), ("utf8mb4", "utf8mb4_general_ci"),
   ("latin1", "latin1_swedish_ci"), ("gbk", "gbk_chinese_ci"),
   ("binary", "binary")]

/-- Modelled from the spec: fragment of the mysql package's
collation-name → collation-id table. -/
def CollationIds : List (String × Nat) :=
  [("utf8_general_ci", 33), ("utf8mb4_general_ci", 45),
   ("latin1_swedish_ci", 8), ("gbk_chinese_ci", 28), ("binary", 63)]

/-- Modelled from the spec: fragment of the mysql package's
collation-name → charset table. -/
def CollationNameToCharset : List (String × String) :=
  [("utf8_general_ci", "utf8"), ("utf8mb4_general_ci", "utf8mb4"),
   ("latin1_swedish_ci", "latin1"), ("gbk_chinese_ci", "gbk"),
   ("binary", "binary")]

/-- Modelled from the spec: `getOnOffVariable` maps `on`/`1` to `"1"`,
`off`/`0` to `"0"` and rejects anything else. -/
def getOnOffVariable (v : String) : Option String :=
  if v = "on" ∨ v = "1" then some "1"
  else if v = "off" ∨ v = "0" then some "0"
  else none

/-- Modelled from the spec: the name of the internal general-log session
variable (`gaeaGeneralLogVariable`, defined outside `src/`). -/
def gaeaGeneralLogVariable : String := "gaea_general_log"

/-- Embedding of `handleSetAutoCommit` (`executor_handle.go`).
Returns the (Go) error, the updated session, and the list of connection
ids recycled to their pools.  With `autocommit = true` the autocommit bit
is set, the in-transaction bit cleared if present, every pinned
connection gets `SetAutoCommit(1)` (the **last** failure, if any, is kept
as the returned error, exactly as the loop overwrites `err`) and is
recycled, and `txConns` is emptied.  With `autocommit = false` only the
autocommit bit is cleared. -/
def handleSetAutoCommit (se : Session) (autocommit : Bool) :
    Option String × Session × List Nat :=
  if autocommit then
    let status1 := se.status ||| ServerStatusAutocommit
    let status2 := clearFlag status1 ServerStatusInTrans
    let err := se.txConns.foldl
      (fun acc pc => if pc.2.autoCommitFails then some "set autocommit error" else acc)
      none
    (err, { se with status := status2, txConns := [] },
     se.txConns.map (fun pc => pc.2.connId))
  else
    (none, { se with status := clearFlag se.status ServerStatusAutocommit }, [])

/-- Embedding of `handleSetVariable` (`executor_handle.go`): the full
switch on the lowercased variable name.  The session-variable setters
`setStringSessionVariable` / `setIntSessionVariable` /
`setGeneralLogVariable` (outside `src/`) are modelled from the spec as
plain stores into `sysVars` / the `generalLog` flag. -/
def handleSetVariable (se : Session) (v : VariableAssignment) :
    Option DBErr × Session × List Nat :=
  if v.isGlobal then
    (some (DBErr.goErr "does not support set variable in global scope"), se, [])
  else
    let name := toLowerStr v.name
    if name = "character_set_results" ∨ name = "character_set_client" ∨
        name = "character_set_connection" then
      let charset := v.value
      if charset = "null" then (none, se, [])
      else if charset = "default" then
        (none, { se with charset := se.defaultCharset,
                         collation := se.defaultCollationId }, [])
      else
        match lookupStr CharsetsToCollationNames charset with
        | none => (some (DBErr.mysqlErr 1115 charset), se, [])
        | some col =>
          (none, { se with charset := charset,
                           collation := (lookupStr CollationIds col).getD 0 }, [])
    else if name = "autocommit" then
      let value := v.value
      if value = "default" ∨ value = "on" ∨ value = "1" then
        let r := handleSetAutoCommit se true
        (r.1.map DBErr.goErr, r.2.1, r.2.2)
      else if value = "off" ∨ value = "0" then
        let r := handleSetAutoCommit se false
        (r.1.map DBErr.goErr, r.2.1, r.2.2)
      else
        (some (DBErr.mysqlErr 1231 (name ++ "," ++ value)), se, [])
    else if name = "setnames" then
      let charset := if v.value = "default" then se.defaultCharset else v.value
      match v.extendValue with
      | some collationName =>
        match lookupStr CollationIds collationName with
        | none => (some (DBErr.mysqlErr 1115 charset), se, [])
        | some cid =>
          match lookupStr CollationNameToCharset collationName with
          | none => (some (DBErr.mysqlErr 1115 charset), se, [])
          | some toCharset =>
            if toCharset ≠ charset then
              (some (DBErr.mysqlErr 1115 charset), se, [])
            else
              (none, { se with charset := charset, collation := cid }, [])
      | none =>
        match lookupStr CharsetsToCollationNames charset with
        | none => (some (DBErr.mysqlErr 1115 charset), se, [])
        | some col =>
          match lookupStr CollationIds col with
          | none => (some (DBErr.mysqlErr 1115 charset), se, [])
          | some cid =>
            (none, { se with charset := charset, collation := cid }, [])
    else if name = "sql_mode" then
      (none, { se with sysVars := upsert se.sysVars "sql_mode" v.value }, [])
    else if name = "sql_safe_updates" then
      match getOnOffVariable v.value with
      | none => (some (DBErr.mysqlErr 1231 (name ++ "," ++ v.value)), se, [])
      | some onOff =>
        (none, { se with sysVars := upsert se.sysVars "sql_safe_updates" onOff }, [])
    else if name = "time_zone" then
      (none, { se with sysVars := upsert se.sysVars "time_zone" v.value }, [])
    else if name = "max_allowed_packet" then
      (some (DBErr.mysqlErr 1621 "max_allowed_packet"), se, [])
    else if name = "wait_timeout" ∨ name = "interactive_timeout" ∨
        name = "net_write_timeout" ∨ name = "net_read_timeout" then
      (none, se, [])
    else if name = "sql_select_limit" then
      (none, se, [])
    else if name = "transaction" then
      (some (DBErr.goErr "does not support set transaction in gaea"), se, [])
    else if name = gaeaGeneralLogVariable then
      match getOnOffVariable v.value with
      | none => (some (DBErr.mysqlErr 1231 (name ++ "," ++ v.value)), se, [])
      | some onOff =>
        (none, { se with generalLog := onOff = "1" }, [])
    else
      (none, se, [])

/-- Embedding of `handleSet` (`executor_handle.go`): apply the listed
assignments in order, stopping at (and returning) the first error; the
session mutations of the already-processed calls — including those the
failing call itself performed — persist.  The recycled-connection ids of
all executed calls are accumulated. -/
def handleSet (se : Session) : List VariableAssignment →
    Option DBErr × Session × List Nat
  | [] => (none, se, [])
  | v :: rest =>
    match handleSetVariable se v with
    | (some e, se', recs) => (some e, se', recs)
    | (none, se', recs) =>
      let r := handleSet se' rest
      (r.1, r.2.1, recs ++ r.2.2)

/-- The variable names enumerated by `handleSetVariable`'s switch. -/
def enumeratedSetVars : List String :=
  ["character_set_results", "character_set_client", "character_set_connection",
   "autocommit", "setnames", "sql_mode", "sql_safe_updates", "time_zone",
   "max_allowed_packet", "wait_timeout", "interactive_timeout",
   "net_write_timeout", "net_read_timeout", "sql_select_limit",
   "transaction", gaeaGeneralLogVariable]

/-! ## `handleQuery` and `doQuery` -/

/-- A backend `mysql.Result`; only its identity matters to the claims. -/
structure MyResult where
  resultId : Nat
deriving DecidableEq, Repr

/-- The outcome of calling a Go collaborator that may panic. -/
inductive PanicOr (α : Type) where
  | ok : α → PanicOr α
  | panicked : PanicOr α
deriving DecidableEq, Repr

/-- Observable side effects of the query entry path.
Modelled from the spec: `RecordSQLForbidden` (statistics manager, outside
`src/`) increments the namespace's forbidden-SQL counter for the given
fingerprint and emits a telemetry event; `sqlForbiddenRecorded` carries
the fingerprint and the namespace name it receives.  `dispatched` marks
the `doQuery` call, `metricsRecorded` the `RecordSessionSQLMetrics` call,
`planBuilt`/`planExecuted` the `getPlan`/`ExecuteIn` calls inside
`doQuery`. -/
inductive Effect where
  | sqlForbiddenRecorded : String → String → Effect
  | dispatched : String → Effect
  | metricsRecorded : Effect
  | planBuilt : Effect
  | planExecuted : Effect
deriving DecidableEq, Repr

/-- Go's `strings.TrimRight(sql, ";")`: drop every trailing `;`. -/
def trimSemicolons (s : String) : String :=
  String.mk ((s.data.reverse.dropWhile (fun c => c == ';')).reverse)

/-- The collaborators `handleQuery` calls.  `fingerprint` models
`mysql.GetFingerprint` (outside `src/`); `doQueryF` is the session's
`doQuery` on the trimmed SQL and may panic; `recordMetricsPanics` says
whether `RecordSessionSQLMetrics` panics on this call. -/
structure QueryEnv where
  nsName : String
  isSQLAllowed : String → Bool
  fingerprint : String → String
  doQueryF : String → PanicOr (Option MyResult × Option DBErr)
  recordMetricsPanics : Bool

/-- Embedding of `handleQuery` (`executor_handle.go`).  The deferred
`recover` block is embedded by its Go semantics: when a collaborator
panics, the named return values keep whatever they held at the moment of
the panic, and the deferred function overwrites **only** `err` with
`errors.ErrInternalServer` (it never resets `r`).  Hence a panic inside
`doQuery` yields `(none, internalServer)` — `r` is still nil there — while
a panic inside `RecordSessionSQLMetrics` yields `(r, internalServer)`
with `r` the result `doQuery` had already returned.  The third component
lists the emitted side effects in order. -/
def handleQuery (env : QueryEnv) (sql0 : String) :
    Option MyResult × Option DBErr × List Effect :=
  if !(env.isSQLAllowed (trimSemicolons sql0)) then
    (none, some (DBErr.mysqlErr 1105 "parser in blacklist"),
     [Effect.sqlForbiddenRecorded (env.fingerprint (trimSemicolons sql0))
        env.nsName])
  else
    match env.doQueryF (trimSemicolons sql0) with
    | PanicOr.panicked =>
      (none, some DBErr.internalServer,
       [Effect.dispatched (trimSemicolons sql0)])
    | PanicOr.ok (r, e) =>
      if env.recordMetricsPanics then
        (r, some DBErr.internalServer,
         [Effect.dispatched (trimSemicolons sql0)])
      else
        (r, e, [Effect.dispatched (trimSemicolons sql0),
                Effect.metricsRecorded])

/-- Whether the `handleQuery` body panics somewhere for this input. -/
def handleQueryPanics (env : QueryEnv) (sql0 : String) : Bool :=
  if !(env.isSQLAllowed (trimSemicolons sql0)) then false
  else
    match env.doQueryF (trimSemicolons sql0) with
    | PanicOr.panicked => true
    | PanicOr.ok _ => env.recordMetricsPanics

/-- Modelled from the spec: `isSQLNotAllowedByUser` (helper outside
`src/`) is true exactly when a read-only user issues a write DML
statement. -/
def isSQLNotAllowedByUser (readOnlyUser isWriteDML : Bool) : Bool :=
  readOnlyUser && isWriteDML

/-- The collaborators `doQuery` consults: the user/statement classification
feeding `isSQLNotAllowedByUser`, the `CanHandleWithoutPlan` flag of the
previewed statement type, and the fast path / plan pipeline results. -/
structure DoQueryEnv where
  readOnlyUser : Bool
  isWriteDML : Bool
  canHandleWithoutPlan : Bool
  withoutPlanF : String → Option MyResult × Option DBErr
  getPlanF : String → Except String Unit
  executeF : String → Except DBErr MyResult

/-- Embedding of `doQuery` (`executor_handle.go`): the read-only-user
check runs first and returns the plain Go error
`fmt.Errorf("write DML is now allowed by read user")`; then the
plan-free fast path; otherwise `getPlan` followed by `ExecuteIn`
(`modifyResultStatus` only adjusts status bits of a successful result
and is not modelled).  The effect list records whether a plan was built
and executed. -/
def doQuery (env : DoQueryEnv) (sql : String) :
    (Option MyResult × Option DBErr) × List Effect :=
  if isSQLNotAllowedByUser env.readOnlyUser env.isWriteDML then
    ((none, some (DBErr.goErr "write DML is now allowed by read user")), [])
  else if env.canHandleWithoutPlan then
    (env.withoutPlanF sql, [])
  else
    match env.getPlanF sql with
    | Except.error m =>
      ((none, some (DBErr.goErr ("get plan error: " ++ m))), [Effect.planBuilt])
    | Except.ok _ =>
      match env.executeF sql with
      | Except.error e => ((none, some e), [Effect.planBuilt, Effect.planExecuted])
      | Except.ok r => ((some r, none), [Effect.planBuilt, Effect.planExecuted])

/-! ## `core/script/inline_expression.go` — `Flat`

A segment is `(prefix, optional compiled script)`; the source field
`prefix` is spelled `pfx` here because `prefix` is reserved in Lean.
Modelled from the spec: a compiled script is represented by the outcome
of its `ExecuteList()` call (compiled scripts yield `[]string`, or a
`ScriptError` during evaluation). -/

structure FlatSegment where
  pfx : String
  script : Option (Except String (List String))
deriving Repr

/-- Modelled from the spec: `flatFill` (helper outside `src/`) prefixes
every script value with the segment's prefix (`prefix + script-value`). -/
def flatFill (pfx : String) (list : List String) : List String :=
  list.map (fun v => pfx ++ v)

/-- Modelled from the spec: `outJoin` (helper outside `src/`) is the
cross-product concatenation step — every already-accumulated string is
joined with every string of the new segment; an empty accumulator is
replaced by the new segment's strings. -/
def outJoin (current segStrings : List String) : List String :=
  if current.isEmpty then segStrings
  else current.flatMap (fun c => segStrings.map (fun s => c ++ s))

/-- The inner loop of `Flat` over one group's segments, accumulating
`current`: a segment with a script cross-joins `flatFill prefix values`
onto the accumulator via `outJoin`; a segment without a script **appends**
its prefix to the accumulator when the prefix is non-empty.  A script
evaluation error aborts the whole `Flat` call. -/
def flatGroup : List FlatSegment → List String → Except String (List String)
  | [], current => Except.ok current
  | s :: rest, current =>
    match s.script with
    | some (Except.error e) => Except.error e
    | some (Except.ok list) =>
      flatGroup rest (outJoin current (flatFill s.pfx list))
    | none =>
      flatGroup rest (if s.pfx ≠ "" then current ++ [s.pfx] else current)

/-- Embedding of `Flat` (`inline_expression.go`): evaluate each group,
pour every produced string into one set (the Go `map[string]struct{}`,
modelled as a `Finset`), first script error wins. -/
def Flat (groups : List (List FlatSegment)) : Except String (Finset String) :=
  groups.foldlM
    (fun set g => (flatGroup g []).map (fun current => set ∪ current.toFinset))
    ∅

/-- The group evaluation the claim (and the spec sentence it quotes)
describes: **every** segment is a factor of the group's cross-product —
a segment without a script contributes the singleton `[prefix]`. -/
def specGroupProduct : List FlatSegment → List String → Except String (List String)
  | [], current => Except.ok current
  | s :: rest, current =>
    match s.script with
    | some (Except.error e) => Except.error e
    | some (Except.ok list) =>
      specGroupProduct rest (outJoin current (flatFill s.pfx list))
    | none => specGroupProduct rest (outJoin current [s.pfx])

/-- `Flat` as the claim describes it: union of the per-group
cross-products. -/
def specFlat (groups : List (List FlatSegment)) : Except String (Finset String) :=
  groups.foldlM
    (fun set g => (specGroupProduct g []).map (fun current => set ∪ current.toFinset))
    ∅

/-- The set contributed by one group (∅ for an erroring group); used to
state what `Flat` returns on success. -/
def groupSet (g : List FlatSegment) : Finset String :=
  match flatGroup g [] with
  | Except.ok current => current.toFinset
  | Except.error _ => ∅

/-! ## `splitSegments` (`executor_handle.go`, script-splitting part)

The expression is a Go (byte) string; the embedding works on `List Char`
restricted to the ASCII range, where Go's `for i, c := range exp` rune
loop visits exactly the bytes in order and `i` is the list index.  The
special bytes are named constants (braces are written via `Char.ofNat`). -/

def dollarChar : Char := '$'

def lbraceChar : Char := Char.ofNat 123

def rbraceChar : Char := Char.ofNat 125

def dotChar : Char := '.'

def commaChar : Char := ','

/-- A parsed inline segment (`inlineSegment`): the trimmed prefix
(spelled `pfx`, `prefix` being reserved in Lean), the trimmed raw script
text, and the compiled script when the raw script is non-empty. -/
structure InlineSegment where
  pfx : String
  rawScript : String
  script : Option String
deriving DecidableEq, Repr

/-- Modelled from the spec: `ParseScriptVar` compiles the bounded inline
script language; the compiled script is represented by its source text
and compilation is total here (script-content errors are not needed by
the claims about the splitter's character-level checks). -/
def ParseScriptVar (s : String) : String := s

/-- The accumulator state of `splitContext`: the two `strings.Builder`s
and the segments flushed so far in the current group. -/
structure SplitCtx where
  pfx : List Char
  rawScript : List Char
  segments : List InlineSegment
deriving DecidableEq, Repr

/-- Go's `strings.TrimSpace` (whitespace stripped from both ends),
restated with structural recursion over the character list. -/
def trimChars (l : List Char) : List Char :=
  ((l.dropWhile Char.isWhitespace).reverse.dropWhile Char.isWhitespace).reverse

/-- Embedding of `splitContext.flushSegment`: trim both accumulators,
compile a non-empty raw script, keep the segment unless blank
(`isBlank` re-trims the already-trimmed fields), reset the
accumulators. -/
def flushSegment (context : SplitCtx) : SplitCtx :=
  let p := trimChars context.pfx
  let r := trimChars context.rawScript
  let seg : InlineSegment :=
    { pfx := String.mk p, rawScript := String.mk r,
      script := if trimChars r = [] then none
                else some (ParseScriptVar (String.mk (trimChars r))) }
  { pfx := [], rawScript := [],
    segments := if trimChars p = [] ∧ trimChars r = [] then context.segments
                else context.segments ++ [seg] }

/-- Embedding of `splitContext.flushGroup`: flush the pending segment,
emit the collected segments as one group, reset the segment list. -/
def flushGroup (context : SplitCtx) : List InlineSegment × SplitCtx :=
  let c := flushSegment context
  (c.segments, { c with segments := [] })

/-- The scan loop of `splitSegments`: one constructor-for-constructor
transcription of the `for i, c := range exp` switch.  Arguments after the
remaining input: current byte index `i`, the `isScript`, `scriptStart`
and `includeSplitter` flags, the accumulator context and the groups
collected so far.  A syntax error is reported as `Except.error i` with
`i` the offending byte index (the source also formats a message around
that index). -/
def splitLoop (expLen : Nat) :
    List Char → Nat → Bool → Bool → Bool → SplitCtx →
    List (List InlineSegment) → Except Nat (List (List InlineSegment))
  | [], _i, _isScript, _scriptStart, _includeSplitter, context, groups =>
    Except.ok (groups ++ [(flushGroup context).1])
  | c :: rest, i, isScript, scriptStart, includeSplitter, context, groups =>
    if c = dollarChar then
      if !isScript then
        if i < expLen - 1 ∧ rest.headD ' ' = lbraceChar then
          splitLoop expLen rest (i + 1) true true includeSplitter context groups
        else
          Except.error i
      else
        Except.error i
    else if c = lbraceChar then
      if isScript then
        if scriptStart then
          splitLoop expLen rest (i + 1) isScript false includeSplitter context groups
        else
          splitLoop expLen rest (i + 1) isScript scriptStart includeSplitter
            { context with rawScript := context.rawScript ++ [c] } groups
      else
        splitLoop expLen rest (i + 1) isScript scriptStart includeSplitter
          { context with pfx := context.pfx ++ [c] } groups
    else if c = dotChar then
      if i = 0 ∨ i = expLen - 1 then
        Except.error i
      else if isScript then
        splitLoop expLen rest (i + 1) isScript scriptStart includeSplitter
          { context with rawScript := context.rawScript ++ [c] } groups
      else if includeSplitter then
        Except.error i
      else
        splitLoop expLen rest (i + 1) isScript scriptStart true
          { context with pfx := context.pfx ++ [c] } groups
    else if c = rbraceChar then
      if isScript then
        splitLoop expLen rest (i + 1) false scriptStart includeSplitter
          (flushSegment context) groups
      else
        Except.error i
    else if c = commaChar then
      if !isScript then
        splitLoop expLen rest (i + 1) isScript scriptStart includeSplitter
          (flushGroup context).2 (groups ++ [(flushGroup context).1])
      else
        splitLoop expLen rest (i + 1) isScript scriptStart includeSplitter
          { context with rawScript := context.rawScript ++ [c] } groups
    else
      if isScript then
        splitLoop expLen rest (i + 1) isScript scriptStart includeSplitter
          { context with rawScript := context.rawScript ++ [c] } groups
      else
        splitLoop expLen rest (i + 1) isScript scriptStart includeSplitter
          { context with pfx := context.pfx ++ [c] } groups

/-- Embedding of `splitSegments`: scan the whole expression, then flush
the final group. -/
def splitSegments (exp : List Char) : Except Nat (List (List InlineSegment)) :=
  splitLoop exp.length exp 0 false false false ⟨[], [], []⟩ []

/-! ### Positional characterization of the scanner's error behaviour -/

/-- How one character changes the `isScript` flag (the `scriptStart` and
`includeSplitter` flags never feed back into `isScript`): a `$` outside a
script whose next byte is `{` enters a script, a `}` leaves it. -/
def scanStep (s : Bool) (c : Char) (rest : List Char) : Bool :=
  if c = dollarChar then
    if !s ∧ rest.headD ' ' = lbraceChar then true else s
  else if c = rbraceChar then false
  else s

/-- The `isScript` flag after consuming the first `n` characters. -/
def scanStateGo : Bool → List Char → Nat → Bool
  | s, [], _ => s
  | s, c :: rest, n =>
    match n with
    | 0 => s
    | n + 1 => scanStateGo (scanStep s c rest) rest n

/-- Whether the scanner is inside a script when it reaches position `i`
(assuming it has not errored before `i`). -/
def inScriptAt (exp : List Char) (i : Nat) : Bool :=
  scanStateGo false exp i

/-- Whether some position before `i` holds a `.` outside a script — the
value of the (never reset) `includeSplitter` flag at position `i`. -/
def dotOutsideBefore (exp : List Char) (i : Nat) : Bool :=
  (List.range i).any (fun j => exp.getD j ' ' == dotChar && !(inScriptAt exp j))

/-- Position `i` is offending: the scanner, arriving there without an
earlier error, stops with a syntax error at exactly the offending
positions.  The five cases are the five `return nil, syntaxError(…)`
sites of `splitSegments`:
a `$` inside a script; a `$` outside a script not immediately followed
by `{` (including `$` as last byte); a `.` at position 0 or `len-1`
(inside or outside a script); a `.` outside a script with an earlier
`.` outside a script anywhere before it; a `}` outside a script. -/
def offendingAt (exp : List Char) (i : Nat) : Bool :=
  let c := exp.getD i ' '
  let s := inScriptAt exp i
  (c == dollarChar && (s || !(exp.getD (i + 1) ' ' == lbraceChar)))
    || (c == dotChar &&
        (i == 0 || i == exp.length - 1 || (!s && dotOutsideBefore exp i)))
    || (c == rbraceChar && !s)

/-- The first offending position of an expression, if any. -/
def firstOffending (exp : List Char) : Option Nat :=
  (List.range exp.length).find? (offendingAt exp)

/-! ## Concrete sessions and environments used by witnesses and
counterexamples -/

/-- A concrete session used to instantiate theorems. -/
def sessionA : Session :=
  { db := "db", charset := "utf8", collation := 33, status := 2,
    txConns := [], sysVars := [], generalLog := false, stmts := [],
    defaultCharset := "utf8", defaultCollationId := 33 }

/-- `sessionA` after a successful `SET sql_mode = "x"`. -/
def sessionB : Session :=
  { sessionA with sysVars := [("sql_mode", "x")] }

deriving instance DecidableEq for Except

/-! # Theorems -/

/-- **C2.** The claim describes the intended behaviour (also spelled out
by the function's own error message): rewrite `LIMIT offset,count` to
`LIMIT 0, offset+count`, failing only when the context carries no limit.
The source guard is inverted: `NewLimitWriter` **errors** on every
context that has a limit (`hasLimit = true`) — with the message saying
there is *no* limit — and builds the rewritten node precisely when the
context has none.  Evaluations at the failing input `hasLimit = true,
offset = 5, count = 3` (and at its flipped twin, which shows the
`offset+count` computation sitting on the wrong branch). -/
theorem newLimitWriter_guard_inverted :
    NewLimitWriter ⟨true, 5, 3⟩ =
      Except.error "there is none limit in plain context" ∧
    NewLimitWriter ⟨false, 5, 3⟩ = Except.ok ⟨8, none⟩ := by
  constructor <;> rfl

/-- **C10.** `handleStmtClose` never returns an error; a payload shorter
than 4 bytes leaves the session untouched; otherwise exactly the
prepared statement keyed by the little-endian `uint32` of the first four
bytes is removed and every other session field is untouched; and closing
the same id twice equals closing it once (idempotence, hence a no-op
when the id is absent). -/
theorem handleStmtClose_spec (se : Session) (data : List Nat) :
    handleStmtClose se data =
      (none,
        if data.length < 4 then se
        else { se with
                stmts := se.stmts.filter
                  (fun p => p.1 ≠ littleEndianUint32 data) }) ∧
    handleStmtClose (handleStmtClose se data).2 data =
      handleStmtClose se data := by
  unfold handleStmtClose
  by_cases h : data.length < 4
  · simp [h]
  · constructor
    · simp [h]
    · simp [h, List.filter_filter]

/-! ### Bit-level helper lemmas for the server-status mask -/

theorem clearFlag_one_testBit_zero (n : Nat) :
    (clearFlag n 1).testBit 0 = false := by
  unfold clearFlag
  rw [Nat.and_one_is_mod]
  by_cases h : n % 2 > 0
  · simp only [if_pos h, Nat.testBit_to_div_mod, pow_zero, Nat.div_one]
    rw [decide_eq_false_iff_not]
    omega
  · simp only [if_neg h, Nat.testBit_to_div_mod, pow_zero, Nat.div_one]
    rw [decide_eq_false_iff_not]
    omega

theorem clearFlag_one_testBit_one (n : Nat) :
    (clearFlag n 1).testBit 1 = n.testBit 1 := by
  unfold clearFlag
  rw [Nat.and_one_is_mod]
  by_cases h : n % 2 > 0
  · simp only [if_pos h, Nat.testBit_to_div_mod, pow_one]
    rw [decide_eq_decide]
    omega
  · simp only [if_neg h]

theorem clearFlag_two_testBit_one (n : Nat) :
    (clearFlag n 2).testBit 1 = false := by
  unfold clearFlag
  rw [show (2 : Nat) = 2 ^ 1 from rfl, Nat.and_two_pow]
  by_cases h : n.testBit 1
  · simp only [h, Bool.toNat_true, one_mul]
    have h' : n / 2 % 2 = 1 := by
      have := h
      rw [Nat.testBit_to_div_mod, decide_eq_true_eq, pow_one] at this
      exact this
    have : 0 < 2 ^ 1 := by norm_num
    simp only [if_pos (by omega : 0 < 2 ^ 1)]
    rw [Nat.testBit_to_div_mod, decide_eq_false_iff_not, pow_one]
    omega
  · simp only [Bool.eq_false_iff] at h
    have h' : n.testBit 1 = false := by
      revert h
      cases n.testBit 1 <;> simp
    simp only [h', Bool.toNat_false, zero_mul]
    simp only [show ¬(0 > 0) from by omega, if_neg, if_false]
    exact h'

theorem clearFlag_two_testBit_zero (n : Nat) :
    (clearFlag n 2).testBit 0 = n.testBit 0 := by
  unfold clearFlag
  rw [show (2 : Nat) = 2 ^ 1 from rfl, Nat.and_two_pow]
  by_cases h : n.testBit 1
  · have h' : n / 2 % 2 = 1 := by
      rw [Nat.testBit_to_div_mod, decide_eq_true_eq, pow_one] at h
      exact h
    simp only [h, Bool.toNat_true, one_mul, if_pos (by omega : 0 < 2 ^ 1)]
    simp only [Nat.testBit_to_div_mod, pow_zero, Nat.div_one]
    rw [decide_eq_decide]
    omega
  · have h' : n.testBit 1 = false := by
      revert h
      cases n.testBit 1 <;> simp
    simp only [h', Bool.toNat_false, zero_mul]
    simp only [show ¬(0 > 0) from by omega, if_neg, if_false]

theorem lor_two_testBit_one (n : Nat) : (n ||| 2).testBit 1 = true := by
  rw [Nat.testBit_lor]
  simp [show Nat.testBit 2 1 = true from by decide]

/-- **C8.** After `handleSetAutoCommit true` the autocommit status bit
(bit 1, `ServerStatusAutocommit = 2`) is set, the in-transaction bit
(bit 0, `ServerStatusInTrans = 1`) is cleared, every pinned connection's
id appears in the recycled list (in `txConns` order) and `txConns` is
emptied, all other session fields being untouched.  After
`handleSetAutoCommit false` no error is returned, nothing is recycled,
`txConns` is untouched, the autocommit bit is cleared, the
in-transaction bit is unchanged, and every other field is untouched. -/
theorem handleSetAutoCommit_spec (se : Session) :
    ((handleSetAutoCommit se true).2.1.status.testBit 1 = true ∧
      (handleSetAutoCommit se true).2.1.status.testBit 0 = false ∧
      (handleSetAutoCommit se true).2.1.txConns = [] ∧
      (handleSetAutoCommit se true).2.2 =
        se.txConns.map (fun pc => pc.2.connId) ∧
      (handleSetAutoCommit se true).2.1 =
        { se with status := (handleSetAutoCommit se true).2.1.status,
                  txConns := [] }) ∧
    ((handleSetAutoCommit se false).1 = none ∧
      (handleSetAutoCommit se false).2.2 = [] ∧
      (handleSetAutoCommit se false).2.1.txConns = se.txConns ∧
      (handleSetAutoCommit se false).2.1.status.testBit 1 = false ∧
      (handleSetAutoCommit se false).2.1.status.testBit 0 =
        se.status.testBit 0 ∧
      (handleSetAutoCommit se false).2.1 =
        { se with status := (handleSetAutoCommit se false).2.1.status }) := by
  refine ⟨⟨?_, ?_, rfl, rfl, rfl⟩, rfl, rfl, rfl, ?_, ?_, rfl⟩
  · show (clearFlag (se.status ||| ServerStatusAutocommit)
      ServerStatusInTrans).testBit 1 = true
    rw [show ServerStatusInTrans = 1 from rfl, clearFlag_one_testBit_one,
      show ServerStatusAutocommit = 2 from rfl, lor_two_testBit_one]
  · show (clearFlag (se.status ||| ServerStatusAutocommit)
      ServerStatusInTrans).testBit 0 = false
    rw [show ServerStatusInTrans = 1 from rfl, clearFlag_one_testBit_zero]
  · show (clearFlag se.status ServerStatusAutocommit).testBit 1 = false
    rw [show ServerStatusAutocommit = 2 from rfl, clearFlag_two_testBit_one]
  · show (clearFlag se.status ServerStatusAutocommit).testBit 0 =
      se.status.testBit 0
    rw [show ServerStatusAutocommit = 2 from rfl, clearFlag_two_testBit_zero]

/-- **C7.** `SET GLOBAL` of any variable is rejected with the
"global scope" error and leaves the session untouched; a session-scope
`SET` of any variable outside the enumerated schema succeeds as a silent
no-op: no error, no session change, nothing recycled. -/
theorem handleSetVariable_unknown_and_global (se : Session)
    (v : VariableAssignment) :
    (v.isGlobal = true →
      handleSetVariable se v =
        (some (DBErr.goErr "does not support set variable in global scope"),
         se, [])) ∧
    (v.isGlobal = false → toLowerStr v.name ∉ enumeratedSetVars →
      handleSetVariable se v = (none, se, [])) := by
  constructor
  · intro hg
    unfold handleSetVariable
    rw [hg]
    rfl
  · intro hg hn
    simp only [enumeratedSetVars, gaeaGeneralLogVariable, List.mem_cons,
      List.mem_singleton, not_or] at hn
    obtain ⟨h1, h2, h3, h4, h5, h6, h7, h8, h9, h10, h11, h12, h13, h14,
      h15, h16, -⟩ := hn
    unfold handleSetVariable
    rw [hg]
    simp only [Bool.false_eq_true, if_false, gaeaGeneralLogVariable]
    rw [if_neg (by tauto), if_neg (by tauto), if_neg (by tauto),
      if_neg (by tauto), if_neg (by tauto), if_neg (by tauto),
      if_neg (by tauto), if_neg (by tauto), if_neg (by tauto),
      if_neg (by tauto), if_neg (by tauto)]

/-- Witness for C7 at concrete inputs: `SET GLOBAL sql_mode = x` errors,
and the unknown session variable `foo` is accepted as a no-op. -/
theorem handleSetVariable_unknown_and_global_witness :
    handleSetVariable sessionA ⟨true, "sql_mode", "x", none⟩ =
      (some (DBErr.goErr "does not support set variable in global scope"),
       sessionA, []) ∧
    handleSetVariable sessionA ⟨false, "foo", "bar", none⟩ =
      (none, sessionA, []) :=
  ⟨(handleSetVariable_unknown_and_global sessionA
      ⟨true, "sql_mode", "x", none⟩).1 rfl,
   (handleSetVariable_unknown_and_global sessionA
      ⟨false, "foo", "bar", none⟩).2 rfl (by decide)⟩

/-- Running `handleSet` past an all-successful prefix continues from the
session the prefix produced, accumulating its recycled connections. -/
theorem handleSet_append_ok (pre : List VariableAssignment) :
    ∀ (se se₁ : Session) (recs : List Nat) (rest : List VariableAssignment),
    handleSet se pre = (none, se₁, recs) →
    handleSet se (pre ++ rest) =
      ((handleSet se₁ rest).1, (handleSet se₁ rest).2.1,
       recs ++ (handleSet se₁ rest).2.2) := by
  induction pre with
  | nil =>
    intro se se₁ recs rest h
    simp only [handleSet] at h
    injection h with h1 h'
    injection h' with h2 h3
    subst h2
    subst h3
    rfl
  | cons v pre ih =>
    intro se se₁ recs rest h
    simp only [handleSet, List.cons_append] at h ⊢
    rcases hv : handleSetVariable se v with ⟨e, se', recs₀⟩
    rw [hv] at h
    cases e with
    | some e0 => simp at h
    | none =>
      simp only at h ⊢
      rcases hrest : handleSet se' pre with ⟨e₁, se₁', recs₁⟩
      rw [hrest] at h
      simp only at h
      injection h with h1 h'
      injection h' with h2 h3
      subst h1
      subst h2
      subst h3
      simp only [List.append_eq]
      rw [ih se' se₁' recs₁ rest (by rw [hrest])]
      simp [List.append_assoc]

/-- **C9.** A multi-assignment `SET` is applied left to right and is not
atomic: when every assignment of `pre` succeeds (producing session `se₁`)
and the next assignment `v` fails with error `e`, the whole statement
returns exactly `e`, the assignments after `v` are never processed, and
the resulting session is the one the failing call left behind — the
effects of `pre` (and any partial effect of `v` itself) persist. -/
theorem handleSet_stops_at_first_failure (se se₁ se₂ : Session)
    (pre post : List VariableAssignment) (v : VariableAssignment)
    (e : DBErr) (recs recs' : List Nat)
    (hpre : handleSet se pre = (none, se₁, recs))
    (hv : handleSetVariable se₁ v = (some e, se₂, recs')) :
    handleSet se (pre ++ v :: post) = (some e, se₂, recs ++ recs') := by
  rw [handleSet_append_ok pre se se₁ recs (v :: post) hpre]
  simp only [handleSet]
  rw [hv]

/-- Witness for C9: `SET sql_mode = x, GLOBAL autocommit = 1,
time_zone = utc` applies the `sql_mode` change, fails on the `GLOBAL`
assignment with the global-scope error, keeps the `sql_mode` effect and
never reaches `time_zone`. -/
theorem handleSet_stops_at_first_failure_witness :
    handleSet sessionA
        ([⟨false, "sql_mode", "x", none⟩] ++
          ⟨true, "autocommit", "1", none⟩ :: [⟨false, "time_zone", "utc", none⟩]) =
      (some (DBErr.goErr "does not support set variable in global scope"),
       sessionB, []) :=
  handleSet_stops_at_first_failure sessionA sessionB sessionB
    [⟨false, "sql_mode", "x", none⟩] [⟨false, "time_zone", "utc", none⟩]
    ⟨true, "autocommit", "1", none⟩
    (DBErr.goErr "does not support set variable in global scope") [] []
    (by decide) (by decide)

/-- An environment in which `doQuery` succeeds with result 7 but the
metrics recording afterwards panics. -/
def envMetricsPanic : QueryEnv :=
  { nsName := "ns", isSQLAllowed := fun _ => true, fingerprint := fun s => s,
    doQueryF := fun _ => PanicOr.ok (some ⟨7⟩, none),
    recordMetricsPanics := true }

/-- An environment whose blacklist rejects every statement. -/
def envBlacklist : QueryEnv :=
  { nsName := "ns1", isSQLAllowed := fun _ => false,
    fingerprint := fun s => String.append "fp:" s,
    doQueryF := fun _ => PanicOr.ok (none, none),
    recordMetricsPanics := false }

/-- **C4 (counterexample).** The claim says every caught panic yields a
`nil` result together with `ErrInternalServer`.  The deferred recovery
in `handleQuery` only overwrites the named return value `err`; it never
resets `r`.  When `doQuery` has already returned the non-nil result 7
and the subsequent `RecordSessionSQLMetrics` call panics, the function
returns that non-nil result alongside `ErrInternalServer`. -/
theorem handleQuery_panic_keeps_result :
    handleQuery envMetricsPanic "select 1" =
      (some ⟨7⟩, some DBErr.internalServer, [Effect.dispatched "select 1"]) ∧
    handleQueryPanics envMetricsPanic "select 1" = true ∧
    some (⟨7⟩ : MyResult) ≠ (none : Option MyResult) := by
  refine ⟨by decide, by decide, by simp⟩

/-- **C4 (amended).** Any panic inside the `handleQuery` body is caught
and surfaces as `ErrInternalServer` instead of propagating; the result
is `nil` when the panic happened inside `doQuery` (the named result was
still unassigned there), and is `doQuery`'s already-returned result when
the panic happened in the metrics recording that follows it. -/
theorem handleQuery_panic_spec (env : QueryEnv) (sql : String)
    (hp : handleQueryPanics env sql = true) :
    (handleQuery env sql).2.1 = some DBErr.internalServer ∧
    (env.doQueryF (trimSemicolons sql) = PanicOr.panicked →
      (handleQuery env sql).1 = none) ∧
    (∀ r e, env.doQueryF (trimSemicolons sql) = PanicOr.ok (r, e) →
      (handleQuery env sql).1 = r) := by
  unfold handleQueryPanics at hp
  cases ha : env.isSQLAllowed (trimSemicolons sql) with
  | false =>
    rw [ha] at hp
    simp at hp
  | true =>
    cases hd : env.doQueryF (trimSemicolons sql) with
    | panicked =>
      refine ⟨?_, fun _ => ?_, fun r e hre => ?_⟩
      · simp [handleQuery, ha, hd]
      · simp [handleQuery, ha, hd]
      · exact PanicOr.noConfusion hre
    | ok pair =>
      obtain ⟨r0, e0⟩ := pair
      rw [ha, hd] at hp
      simp only [Bool.not_true, Bool.false_eq_true, if_false] at hp
      have hm : env.recordMetricsPanics = true := hp
      refine ⟨?_, fun hcontra => ?_, fun r e hre => ?_⟩
      · simp [handleQuery, ha, hd, hm]
      · exact PanicOr.noConfusion hcontra
      · injection hre with hp2
        have hr : r0 = r := congrArg Prod.fst hp2
        subst hr
        simp [handleQuery, ha, hd, hm]

/-- Witness for C4 (amended) at the metrics-panic environment. -/
theorem handleQuery_panic_spec_witness :
    (handleQuery envMetricsPanic "select 1").2.1 =
      some DBErr.internalServer :=
  (handleQuery_panic_spec envMetricsPanic "select 1" (by decide)).1

/-- **C5.** A statement rejected by the namespace blacklist returns the
blacklist error (realized in the source as MySQL error 1105 with message
"parser in blacklist"), records the statement's fingerprint against the
namespace's forbidden-SQL counter (which also emits the telemetry
event), and performs no dispatch at all: `doQuery` is never invoked, so
no plan is built and no backend is contacted. -/
theorem handleQuery_blacklist_spec (env : QueryEnv) (sql : String)
    (h : env.isSQLAllowed (trimSemicolons sql) = false) :
    handleQuery env sql =
      (none, some (DBErr.mysqlErr 1105 "parser in blacklist"),
       [Effect.sqlForbiddenRecorded (env.fingerprint (trimSemicolons sql))
          env.nsName]) := by
  unfold handleQuery
  rw [h]
  rfl

/-- Witness for C5: a blacklisted statement (note the trailing `;` being
trimmed before fingerprinting). -/
theorem handleQuery_blacklist_spec_witness :
    handleQuery envBlacklist "drop table t;" =
      (none, some (DBErr.mysqlErr 1105 "parser in blacklist"),
       [Effect.sqlForbiddenRecorded (String.append "fp:" "drop table t")
          "ns1"]) :=
  handleQuery_blacklist_spec envBlacklist "drop table t;" (by decide)

/-- A `doQuery` environment for a write DML statement of a read-only
user; the remaining collaborators would succeed if reached. -/
def envReadOnlyWrite : DoQueryEnv :=
  { readOnlyUser := true, isWriteDML := true, canHandleWithoutPlan := false,
    withoutPlanF := fun _ => (none, none),
    getPlanF := fun _ => Except.ok (),
    executeF := fun _ => Except.ok ⟨1⟩ }

/-- **C6 (counterexample).** The claim says the rejection uses MySQL
error 1290 (ReadOnly).  The source rejects with a plain
`fmt.Errorf("write DML is now allowed by read user")`, which carries no
MySQL error code at all — it is not error 1290. -/
theorem doQuery_readonly_not_1290 :
    doQuery envReadOnlyWrite "update t set a = 1" =
      ((none, some (DBErr.goErr "write DML is now allowed by read user")), []) ∧
    DBErr.isMysql1290
      (DBErr.goErr "write DML is now allowed by read user") = false := by
  refine ⟨by decide, rfl⟩

/-- **C6 (amended).** A write DML statement of a read-only user is
rejected before any plan is built or any backend contacted (the effect
list is empty), with the generic Go error
"write DML is now allowed by read user" rather than MySQL error 1290. -/
theorem doQuery_readonly_reject (env : DoQueryEnv) (sql : String)
    (h1 : env.readOnlyUser = true) (h2 : env.isWriteDML = true) :
    doQuery env sql =
      ((none, some (DBErr.goErr "write DML is now allowed by read user")),
       []) := by
  unfold doQuery isSQLNotAllowedByUser
  rw [h1, h2]
  rfl

/-- Witness for C6 (amended). -/
theorem doQuery_readonly_reject_witness :
    doQuery envReadOnlyWrite "delete from t" =
      ((none, some (DBErr.goErr "write DML is now allowed by read user")),
       []) :=
  doQuery_readonly_reject envReadOnlyWrite "delete from t" rfl rfl

/-! ### `Flat` lemmas (C1) -/

/-- If the `Flat` fold succeeds, every group's evaluation succeeded. -/
theorem flat_fold_ok_all_ok (gs : List (List FlatSegment)) :
    ∀ (acc s : Finset String),
    gs.foldlM
        (fun set g =>
          (flatGroup g []).map (fun current => set ∪ current.toFinset)) acc
      = Except.ok s →
    ∀ g ∈ gs, ∃ current, flatGroup g [] = Except.ok current := by
  induction gs with
  | nil => intro acc s _ g hg; cases hg
  | cons g0 gs ih =>
    intro acc s h g hg
    rw [List.foldlM_cons] at h
    rcases hg0 : flatGroup g0 [] with e | current
    · rw [hg0] at h
      exact Except.noConfusion (show Except.error e = Except.ok s from h)
    · rw [hg0] at h
      have h' : List.foldlM
          (fun set g =>
            (flatGroup g []).map (fun cur => set ∪ cur.toFinset))
          (acc ∪ current.toFinset) gs = Except.ok s := h
      rcases List.mem_cons.mp hg with hg1 | hg1
      · exact ⟨current, hg1 ▸ hg0⟩
      · exact ih _ s h' g hg1

/-- When every group evaluates, the `Flat` fold computes the union of
the group sets on top of the accumulator. -/
theorem flat_fold_ok_union (gs : List (List FlatSegment)) :
    ∀ acc : Finset String,
    (∀ g ∈ gs, ∃ current, flatGroup g [] = Except.ok current) →
    gs.foldlM
        (fun set g =>
          (flatGroup g []).map (fun current => set ∪ current.toFinset)) acc
      = Except.ok (acc ∪ gs.foldr (fun g t => groupSet g ∪ t) ∅) := by
  induction gs with
  | nil =>
    intro acc _
    simp only [List.foldlM_nil, List.foldr_nil, Finset.union_empty]
    rfl
  | cons g0 gs ih =>
    intro acc hok
    rw [List.foldlM_cons]
    obtain ⟨current, hcur⟩ := hok g0 (List.mem_cons_self g0 gs)
    rw [hcur]
    have h2 := ih (acc ∪ current.toFinset)
      (fun g hg => hok g (List.mem_cons_of_mem g0 hg))
    exact h2.trans (by
      rw [List.foldr_cons,
        show groupSet g0 = current.toFinset from by unfold groupSet; rw [hcur],
        Finset.union_assoc])

/-- Membership in the folded union of group sets. -/
theorem mem_groups_union (x : String) (gs : List (List FlatSegment)) :
    x ∈ gs.foldr (fun g t => groupSet g ∪ t) ∅ ↔
      ∃ g ∈ gs, x ∈ groupSet g := by
  induction gs with
  | nil => simp
  | cons g0 gs ih =>
    simp only [List.foldr_cons, Finset.mem_union, ih, List.mem_cons]
    constructor
    · rintro (h | ⟨g, hg, hx⟩)
      · exact ⟨g0, Or.inl rfl, h⟩
      · exact ⟨g, Or.inr hg, hx⟩
    · rintro ⟨g, hg | hg, hx⟩
      · exact Or.inl (hg ▸ hx)
      · exact Or.inr ⟨g, hg, hx⟩

/-- **C1 (counterexample).** The claim reads every segment — also one
without a script — as a *factor* of the group's cross-product.  The
source instead **appends** a scriptless segment's prefix to the group's
result list.  On the single group `a${…}b` (segments `("a", script
yielding "1")` and `("b", no script)`) the source `Flat` returns
`{a1, b}` while the claim's cross-product reads `{a1b}`; the string `b`
separates the two. -/
theorem flat_appends_scriptless_prefix :
    Flat [[⟨"a", some (Except.ok ["1"])⟩, ⟨"b", none⟩]] =
      Except.ok {"a1", "b"} ∧
    specFlat [[⟨"a", some (Except.ok ["1"])⟩, ⟨"b", none⟩]] =
      Except.ok {"a1b"} ∧
    "b" ∈ ({"a1", "b"} : Finset String) ∧
    "b" ∉ ({"a1b"} : Finset String) := by
  refine ⟨by decide, by decide, by decide, by decide⟩

/-- **C1 (amended).** For every successfully evaluated expression,
`Flat` returns the union over the segment groups of the group
evaluation — where a segment *with* a script cross-joins
`prefix + script-value` onto the accumulated list and a segment
*without* a script appends its non-empty prefix as one additional
element — with duplicates collapsed into a set; the returned set is
independent of the order of the groups. -/
theorem flat_union_of_groups (gs gs' : List (List FlatSegment))
    (s s' : Finset String) (h : Flat gs = Except.ok s)
    (h' : Flat gs' = Except.ok s') (hperm : List.Perm gs gs') :
    (∀ x, x ∈ s ↔ ∃ g ∈ gs, ∃ current,
        flatGroup g [] = Except.ok current ∧ x ∈ current) ∧
    s = s' := by
  have hall := flat_fold_ok_all_ok gs ∅ s h
  have hall' := flat_fold_ok_all_ok gs' ∅ s' h'
  have hs : s = gs.foldr (fun g t => groupSet g ∪ t) ∅ := by
    have := flat_fold_ok_union gs ∅ hall
    unfold Flat at h
    rw [h] at this
    injection this with h2
    rw [h2, Finset.empty_union]
  have hs' : s' = gs'.foldr (fun g t => groupSet g ∪ t) ∅ := by
    have := flat_fold_ok_union gs' ∅ hall'
    unfold Flat at h'
    rw [h'] at this
    injection this with h2
    rw [h2, Finset.empty_union]
  constructor
  · intro x
    rw [hs, mem_groups_union]
    constructor
    · rintro ⟨g, hg, hx⟩
      obtain ⟨current, hcur⟩ := hall g hg
      refine ⟨g, hg, current, hcur, ?_⟩
      unfold groupSet at hx
      rw [hcur] at hx
      exact List.mem_toFinset.mp hx
    · rintro ⟨g, hg, current, hcur, hx⟩
      refine ⟨g, hg, ?_⟩
      unfold groupSet
      rw [hcur]
      exact List.mem_toFinset.mpr hx
  · rw [hs, hs']
    apply Finset.ext
    intro x
    rw [mem_groups_union, mem_groups_union]
    constructor
    · rintro ⟨g, hg, hx⟩
      exact ⟨g, hperm.mem_iff.mp hg, hx⟩
    · rintro ⟨g, hg, hx⟩
      exact ⟨g, hperm.mem_iff.mpr hg, hx⟩

/-- Witness for C1 (amended): the two-group expression
`db_${0,1}, t_x` and its group-reversed form produce the same set
`{db_0, db_1, t_x}`. -/
theorem flat_union_of_groups_witness :
    (∀ x, x ∈ ({"db_0", "db_1", "t_x"} : Finset String) ↔
      ∃ g ∈ [[⟨"db_", some (Except.ok ["0", "1"])⟩], [⟨"t_x", none⟩]],
        ∃ current, flatGroup g [] = Except.ok current ∧ x ∈ current) ∧
    ({"db_0", "db_1", "t_x"} : Finset String) = {"t_x", "db_0", "db_1"} :=
  flat_union_of_groups
    [[⟨"db_", some (Except.ok ["0", "1"])⟩], [⟨"t_x", none⟩]]
    [[⟨"t_x", none⟩], [⟨"db_", some (Except.ok ["0", "1"])⟩]]
    {"db_0", "db_1", "t_x"} {"t_x", "db_0", "db_1"}
    (by decide) (by decide) (List.Perm.swap _ _ [])

/-! ### Scanner lemmas (C3) -/

theorem getD_eq_headD_drop (exp : List Char) :
    ∀ i : Nat, exp.getD i ' ' = (exp.drop i).headD ' ' := by
  induction exp with
  | nil => intro i; cases i <;> rfl
  | cons a tl ih =>
    intro i
    cases i with
    | zero => rfl
    | succ n => exact ih n

theorem drop_succ_of_drop_cons {exp : List Char} :
    ∀ {i : Nat} {c : Char} {rest : List Char},
    exp.drop i = c :: rest → exp.drop (i + 1) = rest := by
  induction exp with
  | nil =>
    intro i c rest h
    rw [List.drop_nil] at h
    cases h
  | cons a tl ih =>
    intro i c rest h
    cases i with
    | zero =>
      have h' : a :: tl = c :: rest := h
      cases h'
      rfl
    | succ n =>
      exact ih h

theorem scanStateGo_zero (s : Bool) (l : List Char) :
    scanStateGo s l 0 = s := by
  cases l <;> rfl

theorem scanStateGo_succ (exp : List Char) :
    ∀ (s : Bool) (i : Nat) (c : Char) (rest : List Char),
    exp.drop i = c :: rest →
    scanStateGo s exp (i + 1) = scanStep (scanStateGo s exp i) c rest := by
  induction exp with
  | nil =>
    intro s i c rest h
    rw [List.drop_nil] at h
    cases h
  | cons a tl ih =>
    intro s i c rest h
    cases i with
    | zero =>
      have h' : a :: tl = c :: rest := h
      cases h'
      show scanStateGo (scanStep s a tl) tl 0 = scanStep s a tl
      rw [scanStateGo_zero]
    | succ n =>
      exact ih (scanStep s a tl) n c rest h

theorem inScriptAt_succ {exp : List Char} {i : Nat} {c : Char}
    {rest : List Char} (h : exp.drop i = c :: rest) :
    inScriptAt exp (i + 1) = scanStep (inScriptAt exp i) c rest :=
  scanStateGo_succ exp false i c rest h

theorem dotOutsideBefore_succ (exp : List Char) (i : Nat) :
    dotOutsideBefore exp (i + 1) =
      (dotOutsideBefore exp i ||
        (exp.getD i ' ' == dotChar && !(inScriptAt exp i))) := by
  unfold dotOutsideBefore
  rw [List.range_succ, List.any_append]
  simp [List.any]

theorem offendingAt_ge_len {exp : List Char} {k : Nat}
    (h : exp.length ≤ k) : offendingAt exp k = false := by
  unfold offendingAt
  rw [List.getD_eq_default _ _ h]
  simp [dollarChar, dotChar, rbraceChar]

theorem offendingAt_lt_len {exp : List Char} {k : Nat}
    (h : offendingAt exp k = true) : k < exp.length := by
  by_contra hc
  rw [offendingAt_ge_len (by omega)] at h
  cases h

/-- The characterization of `offendingAt` at a position known to hold
character `c`. -/
theorem offendingAt_char {exp : List Char} {i : Nat} {c : Char}
    {rest : List Char} (h : exp.drop i = c :: rest) :
    offendingAt exp i =
      ((c == dollarChar &&
          (inScriptAt exp i || !(rest.headD ' ' == lbraceChar)))
        || (c == dotChar &&
            (i == 0 || i == exp.length - 1 ||
              (!(inScriptAt exp i) && dotOutsideBefore exp i)))
        || (c == rbraceChar && !(inScriptAt exp i))) := by
  unfold offendingAt
  rw [getD_eq_headD_drop, h, getD_eq_headD_drop,
    drop_succ_of_drop_cons h]
  rfl

/-- An error return at the current offending position `i` matches a
least-offending description exactly at `k = i`. -/
theorem error_here_iff {T : Type} (exp : List Char) (i k : Nat)
    (h : offendingAt exp i = true) :
    ((Except.error i : Except Nat T) = Except.error k) ↔
      (i ≤ k ∧ offendingAt exp k = true ∧
        ∀ j, i ≤ j → j < k → offendingAt exp j = false) := by
  constructor
  · intro he
    injection he with hik
    subst hik
    exact ⟨Nat.le_refl i, h, fun j h1 h2 => absurd h2 (by omega)⟩
  · rintro ⟨h1, h2, h3⟩
    rcases Nat.eq_or_lt_of_le h1 with heq | hlt
    · rw [heq]
    · rw [h3 i (Nat.le_refl i) hlt] at h
      cases h

/-- Stepping over a non-offending position shifts the least-offending
description by one. -/
theorem step_iff (exp : List Char) (i k : Nat)
    (h : offendingAt exp i = false) :
    (i + 1 ≤ k ∧ offendingAt exp k = true ∧
      ∀ j, i + 1 ≤ j → j < k → offendingAt exp j = false) ↔
    (i ≤ k ∧ offendingAt exp k = true ∧
      ∀ j, i ≤ j → j < k → offendingAt exp j = false) := by
  constructor
  · rintro ⟨h1, h2, h3⟩
    refine ⟨by omega, h2, fun j hj1 hj2 => ?_⟩
    rcases Nat.eq_or_lt_of_le hj1 with heq | hlt
    · rw [← heq]
      exact h
    · exact h3 j (by omega) hj2
  · rintro ⟨h1, h2, h3⟩
    have hne : k ≠ i := by
      intro he
      rw [he] at h2
      rw [h2] at h
      cases h
    exact ⟨by omega, h2, fun j hj1 hj2 => h3 j (by omega) hj2⟩

/-- The scan loop, started at position `i` with the flags the
error-free prefix of the expression induces there, errors at `k` exactly
when `k` is the first offending position at or after `i`.  The
accumulator context and collected groups never influence the error
behaviour. -/
theorem splitLoop_error_iff (exp : List Char) :
    ∀ (rest : List Char) (i : Nat) (st incl : Bool) (context : SplitCtx)
      (groups : List (List InlineSegment)),
    exp.drop i = rest →
    dotOutsideBefore exp i = incl →
    ∀ k, (splitLoop exp.length rest i (inScriptAt exp i) st incl context
            groups = Except.error k) ↔
      (i ≤ k ∧ offendingAt exp k = true ∧
        ∀ j, i ≤ j → j < k → offendingAt exp j = false) := by
  intro rest
  induction rest with
  | nil =>
    intro i st incl context groups hdrop hincl k
    simp only [splitLoop]
    constructor
    · intro he
      exact Except.noConfusion he
    · rintro ⟨h1, h2, h3⟩
      have hle : exp.length ≤ i := List.drop_eq_nil_iff.mp hdrop
      rw [offendingAt_ge_len (by omega)] at h2
      cases h2
  | cons c rest' ih =>
    intro i st incl context groups hdrop hincl k
    have hget : exp.getD i ' ' = c := by
      rw [getD_eq_headD_drop, hdrop]
      rfl
    have hdrop1 : exp.drop (i + 1) = rest' := drop_succ_of_drop_cons hdrop
    have hlen : exp.length = i + 1 + rest'.length := by
      have hl := List.length_drop i exp
      rw [hdrop] at hl
      simp only [List.length_cons] at hl
      omega
    have hoff := offendingAt_char hdrop
    have hstep := inScriptAt_succ hdrop
    have hdot1 : dotOutsideBefore exp (i + 1) =
        (incl || (c == dotChar && !(inScriptAt exp i))) := by
      rw [dotOutsideBefore_succ, hget, hincl]
    simp only [splitLoop]
    by_cases hc1 : c = dollarChar
    · subst hc1
      rw [if_pos rfl]
      cases hs : inScriptAt exp i with
      | true =>
        rw [if_neg (by decide)]
        have hoffT : offendingAt exp i = true := by
          rw [hoff, hs]
          simp
        exact error_here_iff exp i k hoffT
      | false =>
        rw [if_pos (by decide)]
        by_cases hb : rest'.headD ' ' = lbraceChar
        · have hb2 : rest'.head?.getD ' ' = lbraceChar := by
            rw [← List.headD_eq_head?_getD]
            exact hb
          have hlt : i < exp.length - 1 := by
            cases rest' with
            | nil => exact absurd hb (by decide)
            | cons x xs =>
              rw [hlen]
              simp only [List.length_cons]
              omega
          rw [if_pos ⟨hlt, hb⟩]
          have hns : inScriptAt exp (i + 1) = true := by
            rw [hstep, hs]
            simp [scanStep, hb2]
          have hincl1 : dotOutsideBefore exp (i + 1) = incl := by
            rw [hdot1]
            simp [show (dollarChar == dotChar) = false from by decide]
          have hoffF : offendingAt exp i = false := by
            rw [hoff, hs]
            simp [hb2, show (dollarChar == dotChar) = false from by decide,
              show (dollarChar == rbraceChar) = false from by decide]
          have IH := ih (i + 1) true incl context groups hdrop1 hincl1 k
          rw [hns] at IH
          rw [IH]
          exact step_iff exp i k hoffF
        · rw [if_neg (fun hand => hb hand.2)]
          have hb2 : (rest'.head?.getD ' ' == lbraceChar) = false := by
            rw [← List.headD_eq_head?_getD]
            exact beq_eq_false_iff_ne.mpr hb
          have hoffT : offendingAt exp i = true := by
            rw [hoff, hs]
            simp [hb2]
          exact error_here_iff exp i k hoffT
    · rw [if_neg hc1]
      by_cases hc2 : c = lbraceChar
      · subst hc2
        rw [if_pos rfl]
        have hns : inScriptAt exp (i + 1) = inScriptAt exp i := by
          rw [hstep]
          simp [scanStep, show ¬(lbraceChar = dollarChar) from by decide,
            show ¬(lbraceChar = rbraceChar) from by decide]
        have hincl1 : dotOutsideBefore exp (i + 1) = incl := by
          rw [hdot1]
          simp [show (lbraceChar == dotChar) = false from by decide]
        have hoffF : offendingAt exp i = false := by
          rw [hoff]
          simp [show (lbraceChar == dollarChar) = false from by decide,
            show (lbraceChar == dotChar) = false from by decide,
            show (lbraceChar == rbraceChar) = false from by decide]
        cases hs : inScriptAt exp i with
        | true =>
          rw [hs] at hns
          rw [if_pos rfl]
          by_cases hst : st = true
          · rw [if_pos hst]
            have IH := ih (i + 1) false incl context groups hdrop1 hincl1 k
            rw [hns] at IH
            rw [IH]
            exact step_iff exp i k hoffF
          · rw [if_neg hst]
            have IH := ih (i + 1) st incl
              { context with rawScript := context.rawScript ++ [lbraceChar] }
              groups hdrop1 hincl1 k
            rw [hns] at IH
            rw [IH]
            exact step_iff exp i k hoffF
        | false =>
          rw [hs] at hns
          rw [if_neg (by simp)]
          have IH := ih (i + 1) st incl
            { context with pfx := context.pfx ++ [lbraceChar] }
            groups hdrop1 hincl1 k
          rw [hns] at IH
          rw [IH]
          exact step_iff exp i k hoffF
      · rw [if_neg hc2]
        by_cases hc3 : c = dotChar
        · subst hc3
          rw [if_pos rfl]
          by_cases hex : i = 0 ∨ i = exp.length - 1
          · rw [if_pos hex]
            have hoffT : offendingAt exp i = true := by
              rcases hex with h0 | h1
              · rw [hoff, h0]
                simp
              · rw [hoff, h1]
                simp
            exact error_here_iff exp i k hoffT
          · rw [if_neg hex]
            have hne0 : (i == 0) = false := by
              simp only [beq_eq_false_iff_ne, ne_eq]
              tauto
            have hneL : (i == exp.length - 1) = false := by
              simp only [beq_eq_false_iff_ne, ne_eq]
              tauto
            cases hs : inScriptAt exp i with
            | true =>
              rw [if_pos rfl]
              have hns : inScriptAt exp (i + 1) = true := by
                rw [hstep, hs]
                simp [scanStep, show ¬(dotChar = dollarChar) from by decide,
                  show ¬(dotChar = rbraceChar) from by decide]
              have hincl1 : dotOutsideBefore exp (i + 1) = incl := by
                rw [hdot1, hs]
                simp
              have hoffF : offendingAt exp i = false := by
                rw [hoff, hs]
                simp [hne0, hneL,
                  show (dotChar == dollarChar) = false from by decide,
                  show (dotChar == rbraceChar) = false from by decide]
              have IH := ih (i + 1) st incl
                { context with rawScript := context.rawScript ++ [dotChar] }
                groups hdrop1 hincl1 k
              rw [hns] at IH
              rw [IH]
              exact step_iff exp i k hoffF
            | false =>
              rw [if_neg (by simp)]
              cases hincl2 : incl with
              | true =>
                rw [if_pos rfl]
                have hoffT : offendingAt exp i = true := by
                  have hd : dotOutsideBefore exp i = true := by
                    rw [hincl, hincl2]
                  rw [hoff, hs, hd]
                  simp [hne0, hneL]
                exact error_here_iff exp i k hoffT
              | false =>
                rw [if_neg (by simp)]
                have hns : inScriptAt exp (i + 1) = false := by
                  rw [hstep, hs]
                  simp [scanStep, show ¬(dotChar = dollarChar) from by decide,
                    show ¬(dotChar = rbraceChar) from by decide]
                have hincl1 : dotOutsideBefore exp (i + 1) = true := by
                  rw [hdot1, hs, hincl2]
                  simp
                have hoffF : offendingAt exp i = false := by
                  have hd : dotOutsideBefore exp i = false := by
                    rw [hincl, hincl2]
                  rw [hoff, hs, hd]
                  simp [hne0, hneL,
                    show (dotChar == dollarChar) = false from by decide,
                    show (dotChar == rbraceChar) = false from by decide]
                have IH := ih (i + 1) st true
                  { context with pfx := context.pfx ++ [dotChar] }
                  groups hdrop1 hincl1 k
                rw [hns] at IH
                rw [IH]
                exact step_iff exp i k hoffF
        · rw [if_neg hc3]
          by_cases hc4 : c = rbraceChar
          · subst hc4
            rw [if_pos rfl]
            cases hs : inScriptAt exp i with
            | true =>
              rw [if_pos rfl]
              have hns : inScriptAt exp (i + 1) = false := by
                rw [hstep, hs]
                simp [scanStep, show ¬(rbraceChar = dollarChar) from by decide]
              have hincl1 : dotOutsideBefore exp (i + 1) = incl := by
                rw [hdot1]
                simp [show (rbraceChar == dotChar) = false from by decide]
              have hoffF : offendingAt exp i = false := by
                rw [hoff, hs]
                simp [show (rbraceChar == dollarChar) = false from by decide,
                  show (rbraceChar == dotChar) = false from by decide]
              have IH := ih (i + 1) st incl (flushSegment context) groups
                hdrop1 hincl1 k
              rw [hns] at IH
              rw [IH]
              exact step_iff exp i k hoffF
            | false =>
              rw [if_neg (by simp)]
              have hoffT : offendingAt exp i = true := by
                rw [hoff, hs]
                simp [show (rbraceChar == dollarChar) = false from by decide,
                  show (rbraceChar == dotChar) = false from by decide]
              exact error_here_iff exp i k hoffT
          · rw [if_neg hc4]
            by_cases hc5 : c = commaChar
            · subst hc5
              rw [if_pos rfl]
              have hns : inScriptAt exp (i + 1) = inScriptAt exp i := by
                rw [hstep]
                simp [scanStep, show ¬(commaChar = dollarChar) from by decide,
                  show ¬(commaChar = rbraceChar) from by decide]
              have hincl1 : dotOutsideBefore exp (i + 1) = incl := by
                rw [hdot1]
                simp [show (commaChar == dotChar) = false from by decide]
              have hoffF : offendingAt exp i = false := by
                rw [hoff]
                simp [show (commaChar == dollarChar) = false from by decide,
                  show (commaChar == dotChar) = false from by decide,
                  show (commaChar == rbraceChar) = false from by decide]
              cases hs : inScriptAt exp i with
              | true =>
                rw [hs] at hns
                rw [if_neg (by decide)]
                have IH := ih (i + 1) st incl
                  { context with rawScript := context.rawScript ++ [commaChar] }
                  groups hdrop1 hincl1 k
                rw [hns] at IH
                rw [IH]
                exact step_iff exp i k hoffF
              | false =>
                rw [hs] at hns
                rw [if_pos (by decide)]
                have IH := ih (i + 1) st incl (flushGroup context).2
                  (groups ++ [(flushGroup context).1]) hdrop1 hincl1 k
                rw [hns] at IH
                rw [IH]
                exact step_iff exp i k hoffF
            · rw [if_neg hc5]
              have hns : inScriptAt exp (i + 1) = inScriptAt exp i := by
                rw [hstep]
                simp [scanStep, hc1, hc4]
              have hincl1 : dotOutsideBefore exp (i + 1) = incl := by
                rw [hdot1]
                simp [beq_eq_false_iff_ne.mpr hc3]
              have hoffF : offendingAt exp i = false := by
                rw [hoff]
                simp [beq_eq_false_iff_ne.mpr hc1,
                  beq_eq_false_iff_ne.mpr hc3, beq_eq_false_iff_ne.mpr hc4]
              cases hs : inScriptAt exp i with
              | true =>
                rw [hs] at hns
                rw [if_pos rfl]
                have IH := ih (i + 1) st incl
                  { context with rawScript := context.rawScript ++ [c] }
                  groups hdrop1 hincl1 k
                rw [hns] at IH
                rw [IH]
                exact step_iff exp i k hoffF
              | false =>
                rw [hs] at hns
                rw [if_neg (by simp)]
                have IH := ih (i + 1) st incl
                  { context with pfx := context.pfx ++ [c] }
                  groups hdrop1 hincl1 k
                rw [hns] at IH
                rw [IH]
                exact step_iff exp i k hoffF

/-- `find?` over `range n` returns exactly the least index below `n`
satisfying the predicate. -/
theorem find?_range_eq_some (p : Nat → Bool) :
    ∀ (n k : Nat), (List.range n).find? p = some k ↔
      (k < n ∧ p k = true ∧ ∀ j < k, p j = false) := by
  intro n
  induction n with
  | zero =>
    intro k
    simp
  | succ n ihn =>
    intro k
    rw [List.range_succ, List.find?_append]
    rcases hfind : (List.range n).find? p with _ | k'
    · have hnone : ∀ j < n, p j = false := by
        intro j hj
        have h0 := List.find?_eq_none.mp hfind j (List.mem_range.mpr hj)
        revert h0
        cases p j <;> simp
      rw [Option.none_or]
      by_cases hp : p n = true
      · rw [List.find?_cons_of_pos _ hp]
        constructor
        · intro he
          injection he with he1
          subst he1
          exact ⟨Nat.lt_succ_self n, hp, hnone⟩
        · rintro ⟨h1, h2, h3⟩
          have hkn : k = n := by
            rcases (by omega : k < n ∨ k = n) with hlt | heq
            · rw [hnone k hlt] at h2
              cases h2
            · exact heq
          rw [hkn]
      · rw [List.find?_cons_of_neg _ hp]
        constructor
        · intro he
          exact Option.noConfusion he
        · rintro ⟨h1, h2, h3⟩
          have hpn : p n = false := by
            revert hp
            cases p n <;> simp
          rcases (by omega : k < n ∨ k = n) with hlt | heq
          · rw [hnone k hlt] at h2
            cases h2
          · rw [heq] at h2
            rw [h2] at hpn
            cases hpn
    · rw [show (some k').or ((List.find? p [n] : Option Nat)) = some k' from rfl]
      have hk' := (ihn k').mp hfind
      constructor
      · intro he
        injection he with he1
        subst he1
        refine ⟨by omega, hk'.2.1, hk'.2.2⟩
      · rintro ⟨h1, h2, h3⟩
        have hkk : k = k' := by
          rcases Nat.lt_trichotomy k k' with hlt | heq | hgt
          · rw [hk'.2.2 k hlt] at h2
            cases h2
          · exact heq
          · have hcontra := hk'.2.1
            rw [h3 k' hgt] at hcontra
            cases hcontra
        rw [hkk]

/-- **C3 (amended).** Inline-expression parsing returns a `SyntaxError`
whose char index is `i` exactly when `i` is the **first offending byte**
of the expression, where a byte is offending when it is: a `$` inside a
script; a `$` outside a script not immediately followed by `{`; a `}`
outside a script; a `.` at position 0 or `len-1` (whether inside or
outside a script); or a `.` outside a script preceded by an earlier `.`
outside a script **anywhere** in the expression — segment and group
boundaries do not reset the dot restriction, because the scanner's
`includeSplitter` flag is never reset. -/
theorem splitSegments_error_characterization (exp : List Char) (i : Nat) :
    splitSegments exp = Except.error i ↔ firstOffending exp = some i := by
  unfold splitSegments firstOffending
  have hmain := splitLoop_error_iff exp exp 0 false false ⟨[], [], []⟩ []
    rfl rfl i
  rw [show inScriptAt exp 0 = false from scanStateGo_zero false exp] at hmain
  rw [hmain, find?_range_eq_some]
  constructor
  · rintro ⟨-, h2, h3⟩
    exact ⟨offendingAt_lt_len h2, h2, fun j hj => h3 j (Nat.zero_le j) hj⟩
  · rintro ⟨h1, h2, h3⟩
    exact ⟨Nat.zero_le i, h2, fun j _ hj => h3 j hj⟩

/-- **C3 (counterexample).** The claim allows a second `.` when it lies
in a different segment of the same expression.  In `a.b,c.d` the two
dots lie in different comma-separated groups — each half parses fine on
its own — yet the scanner's never-reset `includeSplitter` flag makes
parsing fail at index 5 (the second dot). -/
theorem splitSegments_dot_across_segments :
    splitSegments "a.b,c.d".data = Except.error 5 ∧
    splitSegments "a.b".data =
      Except.ok [[{ pfx := "a.b", rawScript := "", script := none }]] ∧
    splitSegments "c.d".data =
      Except.ok [[{ pfx := "c.d", rawScript := "", script := none }]] := by
  refine ⟨by decide, by decide, by decide⟩

end GoSharding
